import Mathlib

/-!
Shallow embedding of the `rusted_social_simulation` core
(`src/social/{condition,effect,utility,action}.rs` and
`src/social/practice/{role,simple,mod}.rs`).

Modelling conventions:
* Rust trait objects (`Box<dyn Condition<T>>` etc.) are open-ended; every
  implementation is extensionally a pure function over the context, so each
  tree gets one `dyn` leaf holding such a function in addition to the
  concrete variants present in the repository.
* `&mut T` methods (`Effect::apply`, `Action::execute`) are embedded as
  state transformers `T → T`.
* `panic!` aborts the process; it is embedded as the `PanicOr.panicked`
  constructor carrying the formatted message (quotes and contractions of
  the original message text are dropped, the named values are kept).
* `HashMap` fields are embedded as association lists of their entries;
  `HashMap::get` is key lookup (`assocGet`), and iteration (the loop in
  `SimplePractice::get_role`) walks the list in its stored order, which
  stands for the unspecified iteration order of the hash map.
* `i32` utilities are embedded as `Int`; this is exact on every run in
  which no `i32` overflow occurs (overflow behaviour is build-profile
  dependent in Rust and is discussed where relevant).
-/

namespace Social

/-- A role in a social practice (`src/social/practice/role.rs`).
Single variant `Character { id: u32 }`. -/
inductive Role where
  | character (id : Nat)
deriving DecidableEq

/-- The `Display` implementation for `Role`: `Character({id})`. -/
def Role.display : Role → String
  | .character id => "Character(" ++ toString id ++ ")"

/-- Result of a Rust computation that may `panic!`.  `panicked` models the
process abort (it is not a recoverable error value in the source). -/
inductive PanicOr (α : Type) where
  | panicked (message : String)
  | ok (value : α)

/-- A condition over a context `T` (`src/social/condition.rs`).
`mock` is `MockCondition`, `notC` is `NotCondition`, `and` is
`AndCondition`, `or` is `OrCondition`; `dyn` stands for an arbitrary
further implementation of the open trait `Condition<T>`. -/
inductive Condition (T : Type) where
  | mock (value : Bool)
  | notC (condition : Condition T)
  | and (conditions : List (Condition T))
  | or (conditions : List (Condition T))
  | dyn (f : T → Bool)

mutual

/-- `Condition::evaluate`: `MockCondition` returns its fixed value,
`NotCondition` negates its child, `AndCondition` and `OrCondition` loop
over their children (see `evalAnd`/`evalOr`). -/
def Condition.evaluate {T : Type} (context : T) : Condition T → Bool
  | .mock value => value
  | .notC condition => !(Condition.evaluate context condition)
  | .and conditions => Condition.evalAnd context conditions
  | .or conditions => Condition.evalOr context conditions
  | .dyn f => f context

/-- The loop of `AndCondition::evaluate`: return `false` at the first
child that evaluates to `false`, else `true`. -/
def Condition.evalAnd {T : Type} (context : T) : List (Condition T) → Bool
  | [] => true
  | condition :: rest =>
    if !(Condition.evaluate context condition) then false
    else Condition.evalAnd context rest

/-- The loop of `OrCondition::evaluate`: return `true` at the first
child that evaluates to `true`, else `false`. -/
def Condition.evalOr {T : Type} (context : T) : List (Condition T) → Bool
  | [] => false
  | condition :: rest =>
    if Condition.evaluate context condition then true
    else Condition.evalOr context rest

end

/-- The `Utility` alias of `src/social/utility.rs` (`type Utility = i32`),
embedded as `Int`. -/
abbrev Utility := Int

/-- A utility rule over a context `T` (`src/social/utility.rs`).
`fixed` is `FixedUtility`, `conditional` is `ConditionalUtility`, `total`
is `TotalUtility`, `maxR` is `MaxUtility`; `dyn` stands for an arbitrary
further implementation of the open trait `UtilityRule<T>`. -/
inductive UtilityRule (T : Type) where
  | fixed (utility : Utility)
  | conditional (condition : Condition T) (utility : Utility)
  | total (rules : List (UtilityRule T))
  | maxR (rules : List (UtilityRule T))
  | dyn (f : T → Utility)

/-- Rust `Iterator::sum` over `i32` values: a left fold of `+` from `0`. -/
def iterSum (values : List Utility) : Utility :=
  values.foldl (fun acc v => acc + v) 0

/-- Rust `Iterator::max`: `none` on an empty iterator, otherwise the
maximum of the yielded values. -/
def iterMax : List Utility → Option Utility
  | [] => none
  | v :: rest =>
    match iterMax rest with
    | none => some v
    | some m => some (max v m)

mutual

/-- `UtilityRule::calculate_utility`: `FixedUtility` returns its constant,
`ConditionalUtility` returns its value if its condition holds else `0`,
`TotalUtility` sums its children (`.map(..).sum()`), `MaxUtility` takes
the maximum with `unwrap_or(0)` (`.map(..).max().unwrap_or(0)`). -/
def UtilityRule.calculate_utility {T : Type} (context : T) : UtilityRule T → Utility
  | .fixed utility => utility
  | .conditional condition utility =>
    if Condition.evaluate context condition then utility else 0
  | .total rules => iterSum (UtilityRule.mapUtilities context rules)
  | .maxR rules => (iterMax (UtilityRule.mapUtilities context rules)).getD 0
  | .dyn f => f context

/-- The `.iter().map(|r| r.calculate_utility(context))` stage shared by
`TotalUtility` and `MaxUtility`. -/
def UtilityRule.mapUtilities {T : Type} (context : T) : List (UtilityRule T) → List Utility
  | [] => []
  | rule :: rest =>
    UtilityRule.calculate_utility context rule :: UtilityRule.mapUtilities context rest

end

/-- An effect over a context `T` (`src/social/effect.rs`).
`doNothing` is `DoNothing`, `vector` is `EffectVector`; `dyn` stands for an
arbitrary further implementation of the open trait `Effect<T>` (such as
`MockEffect`, which adds a constant to a `u32` context). -/
inductive Effect (T : Type) where
  | doNothing
  | vector (effects : List (Effect T))
  | dyn (f : T → T)

mutual

/-- `Effect::apply` as a state transformer: `DoNothing` leaves the context
unchanged, `EffectVector` loops over its children (see `applyAll`). -/
def Effect.apply {T : Type} : Effect T → T → T
  | .doNothing, context => context
  | .vector effects, context => Effect.applyAll effects context
  | .dyn f, context => f context

/-- The loop of `EffectVector::apply`: apply each sub-effect in list
order, each to the context produced by the previous ones. -/
def Effect.applyAll {T : Type} : List (Effect T) → T → T
  | [], context => context
  | effect :: rest, context => Effect.applyAll rest (Effect.apply effect context)

end

/-- `MockEffect` (`src/social/effect.rs`), an `Effect<u32>` that adds a
constant to the context. -/
def MockEffect (value : Nat) : Effect Nat :=
  .dyn (fun context => context + value)

/-- An action over a context `T` (`src/social/action.rs`).
`simple` is `SimpleAction` (a name plus one condition, one utility rule
and one effect); `mock` is `MockAction` (a name only). -/
inductive Action (T : Type) where
  | simple (name : String) (condition : Condition T)
      (utility_rule : UtilityRule T) (effect : Effect T)
  | mock (name : String)

/-- `Action::get_name`. -/
def Action.get_name {T : Type} : Action T → String
  | .simple name _ _ _ => name
  | .mock name => name

/-- `Action::is_available`: `SimpleAction` evaluates its condition;
`MockAction` always returns `true`. -/
def Action.is_available {T : Type} (action : Action T) (context : T) : Bool :=
  match action with
  | .simple _ condition _ _ => Condition.evaluate context condition
  | .mock _ => true

/-- `Action::get_utility`: `SimpleAction` delegates to its utility rule;
`MockAction` returns `0`. -/
def Action.get_utility {T : Type} (action : Action T) (context : T) : Utility :=
  match action with
  | .simple _ _ utility_rule _ => UtilityRule.calculate_utility context utility_rule
  | .mock _ => 0

/-- `Action::execute` as a state transformer: `SimpleAction` applies its
effect; `MockAction` does nothing.  Availability is not consulted. -/
def Action.execute {T : Type} (action : Action T) (context : T) : T :=
  match action with
  | .simple _ _ _ effect => Effect.apply effect context
  | .mock _ => context

/-- `HashMap::get` on a hash map embedded as the association list of its
entries: the value of the first entry with the given key, if any. -/
def assocGet {α β : Type} [DecidableEq α] : List (α × β) → α → Option β
  | [], _ => none
  | (k, v) :: rest, key => if k = key then some v else assocGet rest key

/-- `SimplePracticeTemplate` (`src/social/practice/simple.rs`): an id, a
name, a `HashMap<Role, String>` of role display names and a
`HashMap<Role, Vec<Box<dyn Action<T>>>>` of per-role action lists, the
maps embedded as association lists of their entries. -/
structure SimplePracticeTemplate (T : Type) where
  id : Nat
  name : String
  role_names : List (Role × String)
  actions : List (Role × List (Action T))

/-- `SimplePracticeTemplate::get_actions`: the configured list for the
role (each `Box` mapped to a reference, here the identity), or an empty
vector when the role has no entry. -/
def SimplePracticeTemplate.get_actions {T : Type}
    (template : SimplePracticeTemplate T) (role : Role) : List (Action T) :=
  match assocGet template.actions role with
  | some actions => actions.map (fun action => action)
  | none => []

/-- `SimplePracticeTemplate::get_id`. -/
def SimplePracticeTemplate.get_id {T : Type} (template : SimplePracticeTemplate T) : Nat :=
  template.id

/-- `SimplePracticeTemplate::get_name`. -/
def SimplePracticeTemplate.get_name {T : Type} (template : SimplePracticeTemplate T) : String :=
  template.name

/-- `SimplePracticeTemplate::get_roles`: the keys of the role-name map. -/
def SimplePracticeTemplate.get_roles {T : Type}
    (template : SimplePracticeTemplate T) : List Role :=
  template.role_names.map (fun entry => entry.1)

/-- `SimplePracticeTemplate::get_role_name`: the display name from the
role-name map, with `unwrap_or_else(|| panic!(..))` on a missing role.
The panic message of the source reads
`PracticeTemplate '{}' does not have the role {}!` (with quotes around
the template name in the original). -/
def SimplePracticeTemplate.get_role_name {T : Type}
    (template : SimplePracticeTemplate T) (role : Role) : PanicOr String :=
  match assocGet template.role_names role with
  | some name => .ok name
  | none =>
    .panicked ("PracticeTemplate " ++ template.name ++ " does not have the role "
      ++ Role.display role ++ "!")

/-- `SimplePractice` (`src/social/practice/simple.rs`): an id, a
`HashMap<Role, u32>` from roles to entity ids (embedded as the
association list of its entries, in its unspecified iteration order) and
its template (a non-owning reference in the source, the value here). -/
structure SimplePractice (T : Type) where
  id : Nat
  role_to_id_map : List (Role × Nat)
  template : SimplePracticeTemplate T

/-- The loop of `SimplePractice::get_role`: scan the role-to-entity map
and return the first role bound to the entity, if any. -/
def SimplePractice.find_role : List (Role × Nat) → Nat → Option Role
  | [], _ => none
  | (role, id) :: rest, entity =>
    if id = entity then some role else SimplePractice.find_role rest entity

/-- `SimplePractice::get_role`: the first role bound to the entity in the
map iteration, with `panic!` when no binding matches.  The panic message
of the source reads
`Practice {} of template '{}' does not have the role for entity {}!`. -/
def SimplePractice.get_role {T : Type}
    (practice : SimplePractice T) (entity : Nat) : PanicOr Role :=
  match SimplePractice.find_role practice.role_to_id_map entity with
  | some role => .ok role
  | none =>
    .panicked ("Practice " ++ toString practice.id ++ " of template "
      ++ SimplePracticeTemplate.get_name practice.template
      ++ " does not have the role for entity " ++ toString entity ++ "!")

/-- `SimplePractice::get_actions`: resolve the role via `get_role`
(whose panic, when it occurs, propagates out of `get_actions` unchanged)
and delegate to the template. -/
def SimplePractice.get_actions {T : Type}
    (practice : SimplePractice T) (entity : Nat) : PanicOr (List (Action T)) :=
  match SimplePractice.get_role practice entity with
  | .panicked message => .panicked message
  | .ok role => .ok (SimplePracticeTemplate.get_actions practice.template role)

/-- `SimplePractice::get_id`. -/
def SimplePractice.get_id {T : Type} (practice : SimplePractice T) : Nat :=
  practice.id

/-- `SimplePractice::get_template`. -/
def SimplePractice.get_template {T : Type}
    (practice : SimplePractice T) : SimplePracticeTemplate T :=
  practice.template

/-- `create_test_template` (`src/social/practice/simple.rs`): id 42, name
`template0`, roles Speaker (`Character(0)`) and Listener (`Character(1)`),
with two mock actions for the Speaker and none for the Listener. -/
def create_test_template : SimplePracticeTemplate Nat :=
  { id := 42
    name := "template0"
    role_names := [(.character 0, "Speaker"), (.character 1, "Listener")]
    actions := [(.character 0, [.mock "action0", .mock "action1"])] }

/-- `create_test_practice` (`src/social/practice/simple.rs`) applied to
`create_test_template`: id 5, Speaker bound to entity 10 and Listener to
entity 11. -/
def create_test_practice : SimplePractice Nat :=
  { id := 5
    role_to_id_map := [(.character 0, 10), (.character 1, 11)]
    template := create_test_template }

/-! Helper lemmas relating the loop-shaped evaluators of the source to
their mathematical descriptions. -/

/-- The `AndCondition` loop computes the conjunction of the children. -/
theorem Condition.evalAnd_eq_all {T : Type} (context : T) (conditions : List (Condition T)) :
    Condition.evalAnd context conditions
      = conditions.all (fun c => Condition.evaluate context c) := by
  induction conditions with
  | nil => rfl
  | cons c rest ih =>
    simp only [Condition.evalAnd, List.all_cons, ih]
    cases Condition.evaluate context c <;> simp

/-- The `OrCondition` loop computes the disjunction of the children. -/
theorem Condition.evalOr_eq_any {T : Type} (context : T) (conditions : List (Condition T)) :
    Condition.evalOr context conditions
      = conditions.any (fun c => Condition.evaluate context c) := by
  induction conditions with
  | nil => rfl
  | cons c rest ih =>
    simp only [Condition.evalOr, List.any_cons, ih]
    cases Condition.evaluate context c <;> simp

/-- The mapping stage of `TotalUtility`/`MaxUtility` is `List.map`. -/
theorem UtilityRule.mapUtilities_eq_map {T : Type} (context : T)
    (rules : List (UtilityRule T)) :
    UtilityRule.mapUtilities context rules
      = rules.map (fun r => UtilityRule.calculate_utility context r) := by
  induction rules with
  | nil => rfl
  | cons r rest ih => simp only [UtilityRule.mapUtilities, List.map_cons, ih]

/-- Folding `+` from an accumulator adds the list sum to it. -/
theorem foldl_add_eq (values : List Utility) :
    ∀ acc : Utility, values.foldl (fun a v => a + v) acc = acc + values.sum := by
  induction values with
  | nil => intro acc; simp
  | cons v rest ih =>
    intro acc
    simp only [List.foldl, List.sum_cons, ih]
    ring

/-- `Iterator::sum` agrees with `List.sum`. -/
theorem iterSum_eq_sum (values : List Utility) : iterSum values = values.sum := by
  simp [iterSum, foldl_add_eq]

/-- On a non-empty list, `Iterator::max` is a `max`-fold from the head. -/
theorem iterMax_cons_foldl (x : Utility) (xs : List Utility) :
    iterMax (x :: xs) = some (xs.foldl max x) := by
  induction xs generalizing x with
  | nil => rfl
  | cons y ys ih =>
    rw [iterMax, ih y]
    show some (max x (ys.foldl max y)) = some ((y :: ys).foldl max x)
    rw [List.foldl_cons, List.foldl_assoc]

/-- `Iterator::max` agrees with `List.max?`. -/
theorem iterMax_eq_max (values : List Utility) : iterMax values = values.max? := by
  cases values with
  | nil => rfl
  | cons x xs =>
    rw [iterMax_cons_foldl]
    rfl

/-- `Iterator::max` is `none` only on the empty iterator. -/
theorem iterMax_eq_none {values : List Utility} (h : iterMax values = none) :
    values = [] := by
  cases values with
  | nil => rfl
  | cons v rest =>
    cases hrest : iterMax rest with
    | none => simp [iterMax, hrest] at h
    | some k => simp [iterMax, hrest] at h

/-- The value of `Iterator::max` is an element of the list. -/
theorem iterMax_mem {values : List Utility} {m : Utility}
    (h : iterMax values = some m) : m ∈ values := by
  induction values generalizing m with
  | nil => simp [iterMax] at h
  | cons v rest ih =>
    cases hrest : iterMax rest with
    | none =>
      simp only [iterMax, hrest, Option.some.injEq] at h
      subst h
      exact List.mem_cons_self _ _
    | some k =>
      simp only [iterMax, hrest, Option.some.injEq] at h
      subst h
      rcases max_choice v k with hc | hc
      · rw [hc]
        exact List.mem_cons_self _ _
      · rw [hc]
        exact List.mem_cons_of_mem _ (ih hrest)

/-- The value of `Iterator::max` bounds every element of the list. -/
theorem le_iterMax {values : List Utility} {m : Utility}
    (h : iterMax values = some m) : ∀ v ∈ values, v ≤ m := by
  induction values generalizing m with
  | nil => simp [iterMax] at h
  | cons v rest ih =>
    cases hrest : iterMax rest with
    | none =>
      obtain rfl := iterMax_eq_none hrest
      simp only [iterMax, Option.some.injEq] at h
      subst h
      intro u hu
      rcases List.mem_cons.mp hu with rfl | hu
      · exact le_refl _
      · simp at hu
    | some k =>
      simp only [iterMax, hrest, Option.some.injEq] at h
      subst h
      intro u hu
      rcases List.mem_cons.mp hu with rfl | hu
      · exact le_max_left _ _
      · exact le_trans (ih hrest u hu) (le_max_right _ _)

/-- A successful scan of the role-to-entity map found an actual binding. -/
theorem find_role_some {bindings : List (Role × Nat)} {entity : Nat} {role : Role}
    (h : SimplePractice.find_role bindings entity = some role) :
    (role, entity) ∈ bindings := by
  induction bindings with
  | nil => simp [SimplePractice.find_role] at h
  | cons b rest ih =>
    obtain ⟨r, id⟩ := b
    simp only [SimplePractice.find_role] at h
    by_cases hid : id = entity
    · rw [if_pos hid] at h
      injection h with h
      subst h
      subst hid
      exact List.mem_cons_self _ _
    · rw [if_neg hid] at h
      exact List.mem_cons_of_mem _ (ih h)

/-- A failed scan of the role-to-entity map means no binding matches. -/
theorem find_role_none {bindings : List (Role × Nat)} {entity : Nat}
    (h : SimplePractice.find_role bindings entity = none) :
    ∀ binding ∈ bindings, binding.2 ≠ entity := by
  induction bindings with
  | nil =>
    intro b hb
    simp at hb
  | cons b rest ih =>
    obtain ⟨r, id⟩ := b
    simp only [SimplePractice.find_role] at h
    by_cases hid : id = entity
    · rw [if_pos hid] at h
      exact absurd h (by simp)
    · rw [if_neg hid] at h
      intro binding hb
      rcases List.mem_cons.mp hb with hb | hb
      · subst hb
        exact hid
      · exact ih h binding hb

/-- A successful `HashMap::get` returns the value of a stored entry. -/
theorem assocGet_some {α β : Type} [DecidableEq α] {entries : List (α × β)}
    {key : α} {value : β} (h : assocGet entries key = some value) :
    (key, value) ∈ entries := by
  induction entries with
  | nil => simp [assocGet] at h
  | cons e rest ih =>
    obtain ⟨k, v⟩ := e
    simp only [assocGet] at h
    by_cases hk : k = key
    · rw [if_pos hk] at h
      injection h with h
      subst h
      subst hk
      exact List.mem_cons_self _ _
    · rw [if_neg hk] at h
      exact List.mem_cons_of_mem _ (ih h)

/-- A failed `HashMap::get` means no stored entry has the key. -/
theorem assocGet_none {α β : Type} [DecidableEq α] {entries : List (α × β)}
    {key : α} (h : assocGet entries key = none) :
    ∀ entry ∈ entries, entry.1 ≠ key := by
  induction entries with
  | nil =>
    intro e he
    simp at he
  | cons e rest ih =>
    obtain ⟨k, v⟩ := e
    simp only [assocGet] at h
    by_cases hk : k = key
    · rw [if_pos hk] at h
      exact absurd h (by simp)
    · rw [if_neg hk] at h
      intro entry he
      rcases List.mem_cons.mp he with he | he
      · subst he
        exact hk
      · exact ih h entry he

/-! Claim theorems. -/

/-- Claim C4: for every list of sub-conditions and every context,
`AndCondition::evaluate` returns the logical AND of all children and is
`true` on the empty child list, and `OrCondition::evaluate` returns the
logical OR of all children and is `false` on the empty child list. -/
theorem and_or_evaluate {T : Type} (conditions : List (Condition T)) (context : T) :
    Condition.evaluate context (Condition.and conditions)
        = conditions.all (fun c => Condition.evaluate context c)
      ∧ Condition.evaluate context (Condition.or conditions)
        = conditions.any (fun c => Condition.evaluate context c)
      ∧ Condition.evaluate context (Condition.and ([] : List (Condition T))) = true
      ∧ Condition.evaluate context (Condition.or ([] : List (Condition T))) = false :=
  ⟨Condition.evalAnd_eq_all context conditions,
   Condition.evalOr_eq_any context conditions, rfl, rfl⟩

/-- Claim C5: for every context and list of child rules,
`TotalUtility::calculate_utility` returns the arithmetic sum of the
children's utilities (0 on the empty list) and
`MaxUtility::calculate_utility` returns the maximum of the children's
utilities, returning 0 rather than an error on the empty list. -/
theorem total_max_calculate {T : Type} (rules : List (UtilityRule T)) (context : T) :
    UtilityRule.calculate_utility context (UtilityRule.total rules)
        = (rules.map (fun r => UtilityRule.calculate_utility context r)).sum
      ∧ UtilityRule.calculate_utility context (UtilityRule.maxR rules)
        = ((rules.map (fun r => UtilityRule.calculate_utility context r)).max?).getD 0
      ∧ UtilityRule.calculate_utility context (UtilityRule.total ([] : List (UtilityRule T))) = 0
      ∧ UtilityRule.calculate_utility context (UtilityRule.maxR ([] : List (UtilityRule T))) = 0 := by
  refine ⟨?_, ?_, rfl, rfl⟩
  · show iterSum (UtilityRule.mapUtilities context rules) = _
    rw [UtilityRule.mapUtilities_eq_map, iterSum_eq_sum]
  · show (iterMax (UtilityRule.mapUtilities context rules)).getD 0 = _
    rw [UtilityRule.mapUtilities_eq_map, iterMax_eq_max]

/-- Claim C10: for every context and non-empty list of child rules whose
utilities are all negative, `MaxUtility::calculate_utility` returns the
(negative) maximum of those utilities — one of them, bounding all of them
— without clamping to 0, hence strictly below the 0 returned for the
empty rule list. -/
theorem max_negative_no_clamp {T : Type} (rules : List (UtilityRule T)) (context : T)
    (hne : rules ≠ [])
    (hneg : ∀ u ∈ rules.map (fun r => UtilityRule.calculate_utility context r), u < 0) :
    UtilityRule.calculate_utility context (UtilityRule.maxR rules)
        ∈ rules.map (fun r => UtilityRule.calculate_utility context r)
      ∧ (∀ u ∈ rules.map (fun r => UtilityRule.calculate_utility context r),
          u ≤ UtilityRule.calculate_utility context (UtilityRule.maxR rules))
      ∧ UtilityRule.calculate_utility context (UtilityRule.maxR rules)
        < UtilityRule.calculate_utility context (UtilityRule.maxR ([] : List (UtilityRule T))) := by
  have hmap : UtilityRule.mapUtilities context rules
      = rules.map (fun r => UtilityRule.calculate_utility context r) :=
    UtilityRule.mapUtilities_eq_map context rules
  obtain ⟨m, hm⟩ : ∃ m, iterMax (UtilityRule.mapUtilities context rules) = some m := by
    cases hrules : UtilityRule.mapUtilities context rules with
    | nil =>
      rw [hmap] at hrules
      exact absurd (List.map_eq_nil_iff.mp hrules) hne
    | cons x xs =>
      exact ⟨_, iterMax_cons_foldl x xs⟩
  have hcalc : UtilityRule.calculate_utility context (UtilityRule.maxR rules) = m := by
    show (iterMax (UtilityRule.mapUtilities context rules)).getD 0 = m
    rw [hm]
    rfl
  have hmem : m ∈ rules.map (fun r => UtilityRule.calculate_utility context r) :=
    hmap ▸ iterMax_mem hm
  refine ⟨?_, ?_, ?_⟩
  · rw [hcalc]
    exact hmem
  · intro u hu
    rw [hcalc]
    exact le_iterMax hm u (by rw [hmap]; exact hu)
  · rw [hcalc]
    show m < (0 : Utility)
    exact hneg m hmem

/-- Claim C10 witness: over rules of fixed utilities −3 and −1 the
maximum is strictly below the 0 of the empty rule list. -/
theorem max_negative_no_clamp_witness :
    UtilityRule.calculate_utility (0 : Nat)
        (UtilityRule.maxR [UtilityRule.fixed (-3), UtilityRule.fixed (-1)])
      < UtilityRule.calculate_utility (0 : Nat) (UtilityRule.maxR ([] : List (UtilityRule Nat))) :=
  (max_negative_no_clamp [UtilityRule.fixed (-3), UtilityRule.fixed (-1)] 0
    (by simp) (by decide)).2.2

/-- Claim C9: `EffectVector::apply` applies each sub-effect exactly once
in list order, left to right, each operating on the context produced by
the earlier ones: the result is the left fold of the children's `apply`
functions over the starting context. -/
theorem effect_vector_seq {T : Type} (effects : List (Effect T)) (context : T) :
    Effect.apply (Effect.vector effects) context
      = effects.foldl (fun ctx effect => Effect.apply effect ctx) context := by
  show Effect.applyAll effects context = _
  induction effects generalizing context with
  | nil => rfl
  | cons effect rest ih =>
    simp only [Effect.applyAll, List.foldl_cons]
    exact ih _

/-- Claim C8: `SimpleAction` delegates `is_available` to its condition,
`get_utility` to its utility rule and `execute` to its effect; the
`execute` equation holds unconditionally — in particular also when
`is_available` would return `false`, availability being nowhere
re-checked inside `execute`. -/
theorem simple_action_delegates {T : Type} (name : String) (condition : Condition T)
    (utility_rule : UtilityRule T) (effect : Effect T) (context : T) :
    Action.is_available (Action.simple name condition utility_rule effect) context
        = Condition.evaluate context condition
      ∧ Action.get_utility (Action.simple name condition utility_rule effect) context
        = UtilityRule.calculate_utility context utility_rule
      ∧ Action.execute (Action.simple name condition utility_rule effect) context
        = Effect.apply effect context :=
  ⟨rfl, rfl, rfl⟩

/-- Claim C7: `SimplePracticeTemplate::get_actions` returns exactly the
configured action list of the role — same elements in the authoring
order, none dropped — and the empty list, not an error, for a role with
no configured actions (including never-registered roles). -/
theorem template_get_actions_spec {T : Type}
    (template : SimplePracticeTemplate T) (role : Role) :
    SimplePracticeTemplate.get_actions template role
      = match assocGet template.actions role with
        | some actions => actions
        | none => [] := by
  unfold SimplePracticeTemplate.get_actions
  cases assocGet template.actions role with
  | some actions => simp
  | none => rfl

/-- Claim C1 counterexample: on the fixture practice (Speaker bound to
entity 10, Listener to entity 11) the unbound entity 99 makes
`SimplePractice::get_role` panic — the process aborts — rather than
signal a recoverable NotFound error. -/
theorem get_role_unbound_panics :
    SimplePractice.get_role create_test_practice 99
      = PanicOr.panicked
          "Practice 5 of template template0 does not have the role for entity 99!" := rfl

/-- Claim C1 (amended): if the entity is bound to a role in the
practice's entity-role mapping, `get_role` returns a role bound to that
entity; if the entity is not bound to any role, `get_role` panics
(aborting the process) rather than returning a sentinel Role — it does
not signal a recoverable NotFound error. -/
theorem get_role_spec {T : Type} (practice : SimplePractice T) (entity : Nat) :
    match SimplePractice.get_role practice entity with
    | .ok role => (role, entity) ∈ practice.role_to_id_map
    | .panicked _ => ∀ binding ∈ practice.role_to_id_map, binding.2 ≠ entity := by
  cases h : SimplePractice.find_role practice.role_to_id_map entity with
  | none =>
    simp only [SimplePractice.get_role, h]
    exact find_role_none h
  | some role =>
    simp only [SimplePractice.get_role, h]
    exact find_role_some h

/-- Claim C2 counterexample: on the fixture template the unregistered
role `Character(99)` makes `SimplePracticeTemplate::get_role_name` panic
— the process aborts — rather than signal a recoverable NotFound error
or return a placeholder string. -/
theorem get_role_name_unregistered_panics :
    SimplePracticeTemplate.get_role_name create_test_template (Role.character 99)
      = PanicOr.panicked
          "PracticeTemplate template0 does not have the role Character(99)!" := rfl

/-- Claim C2 (amended): for a role registered with a display name,
`get_role_name` returns that name; for an unregistered role it panics
(aborting the process) — it neither returns an empty or placeholder
string nor signals a recoverable NotFound error. -/
theorem get_role_name_spec {T : Type} (template : SimplePracticeTemplate T) (role : Role) :
    match SimplePracticeTemplate.get_role_name template role with
    | .ok name => (role, name) ∈ template.role_names
    | .panicked _ => ∀ entry ∈ template.role_names, entry.1 ≠ role := by
  cases h : assocGet template.role_names role with
  | none =>
    simp only [SimplePracticeTemplate.get_role_name, h]
    exact assocGet_none h
  | some name =>
    simp only [SimplePracticeTemplate.get_role_name, h]
    exact assocGet_some h

/-- Claim C3: `SimplePractice::get_actions` is exactly the composition
of `get_role` with the template's `get_actions`, and when `get_role`
fails (here: panics) on an unbound entity, `get_actions` propagates that
same failure, message included, unchanged. -/
theorem get_actions_delegates {T : Type} (practice : SimplePractice T) (entity : Nat) :
    SimplePractice.get_actions practice entity
      = match SimplePractice.get_role practice entity with
        | .panicked message => .panicked message
        | .ok role => .ok (SimplePracticeTemplate.get_actions practice.template role) := rfl

end Social
